import Mathlib

/-!
Verification of the `accounts` transaction-replay engine (`src/main.rs`).

The Rust program stores per-client transaction histories and derives a
closing balance per client by replaying the history in `Account::closing_balance`.
Balances are `u64`; the Rust source performs plain unchecked `u64` arithmetic
(`+=`, `-=`), which in the shipped (release) binary wraps modulo `2^64`.
We embed that semantics faithfully: balance fields are `Nat` and every
addition/subtraction is reduced modulo `W = 2 ^ 64` (`wadd`/`wsub`).

As a reference point for the spec's claims about exact arithmetic we also
give `applyTxInt`/`replayInt`, the same replay over unbounded `Int`, where
overflow and underflow are visible as values outside `[0, 2^64)`.
-/

namespace Accounts

/-- The `u64` modulus: arithmetic in the Rust replay is `u64`. -/
def W : Nat := 2 ^ 64

/-- Embeds Rust `enum TransactionType`. `Deposit`/`Withdrawal` carry the
fixed-point amount (a `u64` value); the dispute-family variants carry no
amount of their own. -/
inductive TransactionType where
  | Dispute : TransactionType
  | Deposit : Nat → TransactionType
  | Withdrawal : Nat → TransactionType
  | Resolve : TransactionType
  | Chargeback : TransactionType
deriving DecidableEq

/-- Embeds Rust `struct Transaction { tx_type, client_id: u16, transaction_id: u32 }`. -/
structure Transaction where
  tx_type : TransactionType
  client_id : Nat
  transaction_id : Nat
deriving DecidableEq

/-- Embeds `Account::get_disputed_transaction`: linear scan of the client's
history returning the first transaction whose id matches, of any kind
(the Rust code clones the found record; cloning is identity here). -/
def get_disputed_transaction (transactions : List Transaction) (tx_id : Nat) :
    Option Transaction :=
  transactions.find? (fun tx => tx.transaction_id == tx_id)

/-- The mutable locals of `Account::closing_balance`'s replay loop:
`held`, `available` (both `u64`, kept `< W` by construction) and `locked`. -/
structure ReplayState where
  held : Nat
  available : Nat
  locked : Bool
deriving DecidableEq

/-- Wrapping `u64` addition (`+=` in the release binary). -/
def wadd (a b : Nat) : Nat := (a + b) % W

/-- Wrapping `u64` subtraction (`-=` in the release binary):
for `a b < W` this is two's-complement `a - b` modulo `2^64`. -/
def wsub (a b : Nat) : Nat := (a + (W - b % W)) % W

/-- One iteration of the `for tx in &self.transactions` loop in
`Account::closing_balance`, dispatching on `tx.tx_type`. The lookup for
Dispute/Resolve scans the whole history `transactions` (the Rust loop
borrows `self.transactions`), not just the prefix already replayed.
`Chargeback` falls into the empty match arm `TransactionType::Chargeback => {}`. -/
def applyTx (transactions : List Transaction) (s : ReplayState)
    (tx : Transaction) : ReplayState :=
  match tx.tx_type with
  | TransactionType.Chargeback => s
  | TransactionType.Deposit amount =>
      { s with available := wadd s.available amount }
  | TransactionType.Dispute =>
      match get_disputed_transaction transactions tx.transaction_id with
      | some ⟨TransactionType.Withdrawal amount, _, _⟩ =>
          { s with held := wsub s.held amount, available := wadd s.available amount }
      | some ⟨TransactionType.Deposit amount, _, _⟩ =>
          { s with held := wadd s.held amount, available := wsub s.available amount }
      | _ => s
  | TransactionType.Resolve =>
      match get_disputed_transaction transactions tx.transaction_id with
      | some ⟨TransactionType.Withdrawal amount, _, _⟩ =>
          { s with held := wadd s.held amount, available := wsub s.available amount }
      | some ⟨TransactionType.Deposit amount, _, _⟩ =>
          { s with held := wsub s.held amount, available := wadd s.available amount }
      | _ => s
  | TransactionType.Withdrawal amount =>
      if amount ≤ s.available then { s with available := wsub s.available amount }
      else s

/-- Embeds Rust `struct ClosingBalance { held, available, total, locked }`. -/
structure ClosingBalance where
  held : Nat
  available : Nat
  total : Nat
  locked : Bool
deriving DecidableEq

/-- Embeds `Account::closing_balance`: fold the replay loop over the history
starting from `held = 0, available = 0, locked = false`, then package the
result with `total = available + held` (a `u64` addition). -/
def closing_balance (transactions : List Transaction) : ClosingBalance :=
  let s := transactions.foldl (applyTx transactions) ⟨0, 0, false⟩
  { held := s.held, available := s.available,
    total := wadd s.available s.held, locked := s.locked }

/-- Embeds `Accounts::add_transaction`: route the transaction to its client's
account, creating the account on first sight. The `HashMap<u16, Account>` is
modelled as a total map from client id to that client's (insertion-ordered)
transaction list; absent clients map to `[]`. -/
def add_transaction (accounts : Nat → List Transaction) (tx : Transaction) :
    Nat → List Transaction :=
  fun c => if c = tx.client_id then accounts c ++ [tx] else accounts c

/-- The account store obtained by feeding an input stream through
`Accounts::add_transaction` starting from the empty store. -/
def buildAccounts (txs : List Transaction) : Nat → List Transaction :=
  txs.foldl add_transaction (fun _ => [])

/-- Exact-integer replay state: the spec's reference semantics, where the
`u64` additions and subtractions are read as unbounded integer arithmetic. -/
structure ReplayStateInt where
  held : Int
  available : Int
  locked : Bool
deriving DecidableEq

/-- The loop body of `Account::closing_balance` under exact integer
arithmetic: identical control flow to `applyTx`, with `+`/`-` on `Int`
in place of wrapping `u64` operations. -/
def applyTxInt (transactions : List Transaction) (s : ReplayStateInt)
    (tx : Transaction) : ReplayStateInt :=
  match tx.tx_type with
  | TransactionType.Chargeback => s
  | TransactionType.Deposit amount =>
      { s with available := s.available + amount }
  | TransactionType.Dispute =>
      match get_disputed_transaction transactions tx.transaction_id with
      | some ⟨TransactionType.Withdrawal amount, _, _⟩ =>
          { s with held := s.held - amount, available := s.available + amount }
      | some ⟨TransactionType.Deposit amount, _, _⟩ =>
          { s with held := s.held + amount, available := s.available - amount }
      | _ => s
  | TransactionType.Resolve =>
      match get_disputed_transaction transactions tx.transaction_id with
      | some ⟨TransactionType.Withdrawal amount, _, _⟩ =>
          { s with held := s.held + amount, available := s.available - amount }
      | some ⟨TransactionType.Deposit amount, _, _⟩ =>
          { s with held := s.held - amount, available := s.available + amount }
      | _ => s
  | TransactionType.Withdrawal amount =>
      if (amount : Int) ≤ s.available then { s with available := s.available - amount }
      else s

/-- Exact-integer replay of the prefix `pre` of a history, with
Dispute/Resolve lookups resolved against the full history `transactions`
(as in the Rust loop). -/
def replayInt (transactions pre : List Transaction) : ReplayStateInt :=
  pre.foldl (applyTxInt transactions) ⟨0, 0, false⟩

/-- A transaction record carrying referenceable funds: a `Deposit` or a
`Withdrawal`. The spec calls these the fundable kinds. -/
def isFundRecord (tx : Transaction) : Bool :=
  match tx.tx_type with
  | TransactionType.Deposit _ => true
  | TransactionType.Withdrawal _ => true
  | _ => false

/-! ### Basic facts about the wrapping arithmetic and the replay loop -/

theorem W_pos : 0 < W := by decide

theorem wadd_lt (a b : Nat) : wadd a b < W := Nat.mod_lt _ W_pos

theorem wsub_lt (a b : Nat) : wsub a b < W := Nat.mod_lt _ W_pos

/-- Subtracting back what was added is the identity modulo `2^64`,
for states in `u64` range. -/
theorem wsub_wadd_cancel (a x : Nat) (ha : a < W) : wsub (wadd a x) x = a := by
  simp only [wadd, wsub, W] at *
  omega

/-- Adding back what was subtracted is the identity modulo `2^64`,
for states in `u64` range. -/
theorem wadd_wsub_cancel (a x : Nat) (ha : a < W) : wadd (wsub a x) x = a := by
  simp only [wadd, wsub, W] at *
  omega

/-- No branch of the replay loop body ever writes the `locked` flag
(the `Chargeback` arm of the Rust `match` is empty). -/
theorem applyTx_locked (l : List Transaction) (s : ReplayState) (tx : Transaction) :
    (applyTx l s tx).locked = s.locked := by
  unfold applyTx
  split
  · rfl
  · rfl
  · split <;> rfl
  · split <;> rfl
  · split <;> rfl

/-- The replay loop leaves `locked` at its initial value. -/
theorem foldl_applyTx_locked (l : List Transaction) (txs : List Transaction)
    (s : ReplayState) : (txs.foldl (applyTx l) s).locked = s.locked := by
  induction txs generalizing s with
  | nil => rfl
  | cons tx rest ih => rw [List.foldl_cons, ih, applyTx_locked]

/-- Each step of the replay loop keeps `held` and `available` in `u64`
range when they start there (every write is a `% 2^64` reduction). -/
theorem applyTx_lt (l : List Transaction) (s : ReplayState) (tx : Transaction)
    (hh : s.held < W) (ha : s.available < W) :
    (applyTx l s tx).held < W ∧ (applyTx l s tx).available < W := by
  unfold applyTx
  split
  · exact ⟨hh, ha⟩
  · exact ⟨hh, wadd_lt _ _⟩
  · split <;> first
      | exact ⟨hh, ha⟩
      | exact ⟨wsub_lt _ _, wadd_lt _ _⟩
      | exact ⟨wadd_lt _ _, wsub_lt _ _⟩
  · split <;> first
      | exact ⟨hh, ha⟩
      | exact ⟨wsub_lt _ _, wadd_lt _ _⟩
      | exact ⟨wadd_lt _ _, wsub_lt _ _⟩
  · split
    · exact ⟨hh, wsub_lt _ _⟩
    · exact ⟨hh, ha⟩

/-- The replay state stays in `u64` range along the whole fold. -/
theorem foldl_applyTx_lt (l : List Transaction) (txs : List Transaction)
    (s : ReplayState) (hh : s.held < W) (ha : s.available < W) :
    (txs.foldl (applyTx l) s).held < W ∧ (txs.foldl (applyTx l) s).available < W := by
  induction txs generalizing s with
  | nil => exact ⟨hh, ha⟩
  | cons tx rest ih =>
      rw [List.foldl_cons]
      exact ih _ (applyTx_lt l s tx hh ha).1 (applyTx_lt l s tx hh ha).2

/-! ### Claim theorems -/

/-- C10: the `locked` flag of every closing balance is `false`, whatever the
history contains (including `Chargeback` records): `closing_balance`
initializes `locked := false` and no arm of the replay loop assigns it. -/
theorem C10_locked_always_false (txs : List Transaction) :
    (closing_balance txs).locked = false := by
  unfold closing_balance
  exact foldl_applyTx_locked txs txs ⟨0, 0, false⟩

/-- C1 failing input: history `[Deposit 10 (tx 1), Dispute (tx 1),
Chargeback (tx 1)]`. The claim expects the chargeback of the disputed
deposit to decrease `held` by 10 (to 0) and set `locked := true`; the code's
`Chargeback` arm is empty, so `held` stays 10 and `locked` stays `false`. -/
theorem C1_chargeback_is_noop_eval :
    closing_balance
        [⟨TransactionType.Deposit 10, 1, 1⟩, ⟨TransactionType.Dispute, 1, 1⟩,
          ⟨TransactionType.Chargeback, 1, 1⟩] =
      { held := 10, available := 0, total := 10, locked := false } := by
  decide

/-- C4 failing input: two deposits of `2^63`. The exact-integer replay puts
`available` at `2^64`, outside `u64` range, yet `closing_balance` returns a
wrapped balance (`available = 0`) with no failure signal — its type has no
error channel at all. -/
theorem C4_overflow_wraps_silently :
    (closing_balance
          [⟨TransactionType.Deposit (2 ^ 63), 1, 1⟩,
            ⟨TransactionType.Deposit (2 ^ 63), 1, 2⟩]).available = 0 ∧
      (replayInt
          [⟨TransactionType.Deposit (2 ^ 63), 1, 1⟩,
            ⟨TransactionType.Deposit (2 ^ 63), 1, 2⟩]
          [⟨TransactionType.Deposit (2 ^ 63), 1, 1⟩,
            ⟨TransactionType.Deposit (2 ^ 63), 1, 2⟩]).available = 2 ^ 64 := by
  constructor
  · decide
  · decide

/-- C2 counterexample: deposit 10 (tx 1), withdraw 10, then dispute tx 1.
Under the exact-integer reference semantics the dispute step performs
`available -= 10` unconditionally, driving `available` to `-10 < 0` after
the full prefix, refuting the claim that `available ≥ 0` at every point. -/
theorem C2_available_can_go_negative :
    (replayInt
          [⟨TransactionType.Deposit 10, 1, 1⟩, ⟨TransactionType.Withdrawal 10, 1, 2⟩,
            ⟨TransactionType.Dispute, 1, 1⟩]
          [⟨TransactionType.Deposit 10, 1, 1⟩, ⟨TransactionType.Withdrawal 10, 1, 2⟩,
            ⟨TransactionType.Dispute, 1, 1⟩]).available < 0 := by
  decide

/-- C3 counterexample: in `[Deposit 10 (tx 1), Withdrawal 5 (tx 2),
Dispute (tx 2)]` the dispute's reference resolves to a Withdrawal — not a
Deposit — yet it is not a no-op: the code's Withdrawal arm runs
`held -= 5; available += 5`, so the closing balance differs from the
`{held 0, available 5}` the claim predicts (`held` wraps to `2^64 - 5`). -/
theorem C3_dispute_of_withdrawal_mutates :
    (get_disputed_transaction
        [⟨TransactionType.Deposit 10, 1, 1⟩, ⟨TransactionType.Withdrawal 5, 1, 2⟩,
          ⟨TransactionType.Dispute, 1, 2⟩] 2 =
      some ⟨TransactionType.Withdrawal 5, 1, 2⟩) ∧
      closing_balance
          [⟨TransactionType.Deposit 10, 1, 1⟩, ⟨TransactionType.Withdrawal 5, 1, 2⟩,
            ⟨TransactionType.Dispute, 1, 2⟩] ≠
        { held := 0, available := 5, total := 5, locked := false } := by
  constructor
  · decide
  · decide

/-- C5 counterexample: in the history `[Dispute (tx 7), Deposit 10 (tx 7)]`
the lookup for id 7 returns the `Dispute` record (the first match), not the
`Deposit` and not "not found" — refuting the claim that the lookup only ever
returns Deposit/Withdrawal records. -/
theorem C5_lookup_returns_dispute_record :
    ¬ (∀ tx : Transaction,
        get_disputed_transaction
            [⟨TransactionType.Dispute, 1, 7⟩, ⟨TransactionType.Deposit 10, 1, 7⟩] 7 =
          some tx → isFundRecord tx = true) := by
  intro h
  have hd := h ⟨TransactionType.Dispute, 1, 7⟩ (by decide)
  simp [isFundRecord] at hd

/-- C5 (amended): the lookup returns the first transaction in the history
with the requested id, of any kind — so whatever it returns carries that id
and belongs to the history (the restriction to Deposit/Withdrawal happens
only at the use site, in the replay's `match`). -/
theorem C5_lookup_sound (l : List Transaction) (i : Nat) (tx : Transaction)
    (h : get_disputed_transaction l i = some tx) :
    tx.transaction_id = i ∧ tx ∈ l := by
  unfold get_disputed_transaction at h
  refine ⟨?_, List.mem_of_find?_eq_some h⟩
  have hp := List.find?_some h
  simpa using hp

/-- C5 witness: the lookup in a one-deposit history returns that deposit,
which indeed has the requested id and is in the history. -/
theorem C5_lookup_sound_witness :
    (⟨TransactionType.Deposit 4, 2, 9⟩ : Transaction).transaction_id = 9 ∧
      (⟨TransactionType.Deposit 4, 2, 9⟩ : Transaction) ∈
        [(⟨TransactionType.Deposit 4, 2, 9⟩ : Transaction)] :=
  C5_lookup_sound [⟨TransactionType.Deposit 4, 2, 9⟩] 9
    ⟨TransactionType.Deposit 4, 2, 9⟩ (by decide)

/-- C3 (amended): a Dispute or Resolve whose reference resolves to no record
at all, or to a record that is neither a Deposit nor a Withdrawal (i.e. a
dispute-family record), is a silent no-op on the replay state. (A reference
resolving to a Withdrawal is NOT a no-op — see the counterexample.) -/
theorem C3_unreferenced_dispute_noop (l : List Transaction) (s : ReplayState)
    (tx : Transaction)
    (hk : tx.tx_type = TransactionType.Dispute ∨ tx.tx_type = TransactionType.Resolve)
    (hr : ∀ r, get_disputed_transaction l tx.transaction_id = some r →
      isFundRecord r = false) :
    applyTx l s tx = s := by
  have hmain : ∀ k : TransactionType,
      (k = TransactionType.Dispute ∨ k = TransactionType.Resolve) →
      (match get_disputed_transaction l tx.transaction_id with
        | some ⟨TransactionType.Withdrawal amount, _, _⟩ =>
            { s with held := wsub s.held amount, available := wadd s.available amount }
        | some ⟨TransactionType.Deposit amount, _, _⟩ =>
            { s with held := wadd s.held amount, available := wsub s.available amount }
        | _ => s) = s ∧
      (match get_disputed_transaction l tx.transaction_id with
        | some ⟨TransactionType.Withdrawal amount, _, _⟩ =>
            { s with held := wadd s.held amount, available := wsub s.available amount }
        | some ⟨TransactionType.Deposit amount, _, _⟩ =>
            { s with held := wsub s.held amount, available := wadd s.available amount }
        | _ => s) = s := by
    intro k _
    cases hg : get_disputed_transaction l tx.transaction_id with
    | none => exact ⟨rfl, rfl⟩
    | some r =>
        have hf := hr r hg
        rcases r with ⟨rk, rc, ri⟩
        cases rk with
        | Deposit a => simp [isFundRecord] at hf
        | Withdrawal a => simp [isFundRecord] at hf
        | Dispute => exact ⟨rfl, rfl⟩
        | Resolve => exact ⟨rfl, rfl⟩
        | Chargeback => exact ⟨rfl, rfl⟩
  rcases hk with hk | hk
  · unfold applyTx
    rw [hk]
    exact (hmain TransactionType.Dispute (Or.inl rfl)).1
  · unfold applyTx
    rw [hk]
    exact (hmain TransactionType.Resolve (Or.inr rfl)).2

/-- C3 witness: disputing id 7 in a history whose only record with id 7 is a
Resolve record leaves the replay state unchanged. -/
theorem C3_unreferenced_dispute_noop_witness :
    applyTx [⟨TransactionType.Resolve, 1, 7⟩] ⟨3, 4, false⟩
        ⟨TransactionType.Dispute, 1, 7⟩ =
      ⟨3, 4, false⟩ := by
  refine C3_unreferenced_dispute_noop [⟨TransactionType.Resolve, 1, 7⟩] ⟨3, 4, false⟩
    ⟨TransactionType.Dispute, 1, 7⟩ (Or.inl rfl) ?_
  intro r h
  have hr : r = ⟨TransactionType.Resolve, 1, 7⟩ := by
    have he : get_disputed_transaction [⟨TransactionType.Resolve, 1, 7⟩] 7 =
        some ⟨TransactionType.Resolve, 1, 7⟩ := by decide
    rw [he] at h
    exact (Option.some_inj.mp h).symm
  rw [hr]
  rfl

/-- C6: the Withdrawal arm of the replay loop subtracts the amount from
`available` when it is covered, and otherwise changes nothing — no partial
application and no error. Stated for replay states in `u64` range, where the
guarded wrapping subtraction coincides with exact subtraction. -/
theorem C6_withdrawal_guard (l : List Transaction) (s : ReplayState)
    (tx : Transaction) (A : Nat) (htx : tx.tx_type = TransactionType.Withdrawal A)
    (hs : s.available < W) :
    (A ≤ s.available →
      applyTx l s tx = { s with available := s.available - A }) ∧
    (s.available < A → applyTx l s tx = s) := by
  constructor
  · intro h
    unfold applyTx
    rw [htx]
    dsimp only
    rw [if_pos h]
    have hw : wsub s.available A = s.available - A := by
      simp only [wsub, W] at *
      omega
    rw [hw]
  · intro h
    unfold applyTx
    rw [htx]
    dsimp only
    rw [if_neg (not_le.mpr h)]

/-- C6 witness: withdrawing 3 from available 5 leaves 2; withdrawing 9 from
available 5 is a no-op. -/
theorem C6_withdrawal_guard_witness :
    applyTx [] ⟨0, 5, false⟩ ⟨TransactionType.Withdrawal 3, 1, 1⟩ = ⟨0, 2, false⟩ ∧
      applyTx [] ⟨0, 5, false⟩ ⟨TransactionType.Withdrawal 9, 1, 2⟩ = ⟨0, 5, false⟩ := by
  constructor
  · have h := (C6_withdrawal_guard [] ⟨0, 5, false⟩ ⟨TransactionType.Withdrawal 3, 1, 1⟩
      3 rfl (by decide)).1 (by decide)
    simpa using h
  · exact (C6_withdrawal_guard [] ⟨0, 5, false⟩ ⟨TransactionType.Withdrawal 9, 1, 2⟩
      9 rfl (by decide)).2 (by decide)

/-- Exact-integer replay keeps `available` nonnegative over any run of
Deposit/Withdrawal records: deposits add a nonnegative amount, and the
withdrawal guard only subtracts what is covered. -/
theorem foldl_applyTxInt_nonneg (l : List Transaction) (pre : List Transaction)
    (hf : ∀ tx ∈ pre, isFundRecord tx = true) (s : ReplayStateInt)
    (hs : 0 ≤ s.available) :
    0 ≤ (pre.foldl (applyTxInt l) s).available := by
  induction pre generalizing s with
  | nil => exact hs
  | cons tx rest ih =>
      rw [List.foldl_cons]
      refine ih (fun t ht => hf t (List.mem_cons_of_mem _ ht)) _ ?_
      have htx := hf tx (List.mem_cons_self _ _)
      rcases tx with ⟨k, c, i⟩
      cases k with
      | Deposit a =>
          show (0 : Int) ≤ s.available + a
          have ha : (0 : Int) ≤ (a : Int) := Int.natCast_nonneg a
          omega
      | Withdrawal a =>
          show 0 ≤ (if (a : Int) ≤ s.available then
              { s with available := s.available - a } else s).available
          split
          · next h =>
              show 0 ≤ s.available - (a : Int)
              omega
          · exact hs
      | Dispute => simp [isFundRecord] at htx
      | Resolve => simp [isFundRecord] at htx
      | Chargeback => simp [isFundRecord] at htx

/-- C2 (amended): for histories made only of Deposit and Withdrawal records,
the exact-integer replay keeps `available ≥ 0` after every prefix — in
particular a Withdrawal never drives `available` below zero. (With
Dispute/Resolve records present this fails; see the counterexample.) -/
theorem C2_available_nonneg_fund_only (txs : List Transaction)
    (hf : ∀ tx ∈ txs, isFundRecord tx = true) (n : Nat) :
    0 ≤ (replayInt txs (txs.take n)).available :=
  foldl_applyTxInt_nonneg txs (txs.take n)
    (fun t ht => hf t (List.mem_of_mem_take ht)) ⟨0, 0, false⟩ le_rfl

/-- C2 witness: a deposit of 5 followed by a withdrawal of 3 keeps
`available` nonnegative after the full prefix. -/
theorem C2_available_nonneg_fund_only_witness :
    0 ≤ (replayInt
          [⟨TransactionType.Deposit 5, 1, 1⟩, ⟨TransactionType.Withdrawal 3, 1, 2⟩]
          (List.take 2
            [⟨TransactionType.Deposit 5, 1, 1⟩,
              ⟨TransactionType.Withdrawal 3, 1, 2⟩])).available :=
  C2_available_nonneg_fund_only
    [⟨TransactionType.Deposit 5, 1, 1⟩, ⟨TransactionType.Withdrawal 3, 1, 2⟩]
    (by decide) 2

/-- C7: depositing `X` (any `u64` amount) and then disputing that deposit
yields `held = X`, `available = 0`, `total = X`, with the account not
locked. -/
theorem C7_deposit_dispute (X c t : Nat) (hX : X < W) :
    closing_balance [⟨TransactionType.Deposit X, c, t⟩, ⟨TransactionType.Dispute, c, t⟩] =
      { held := X, available := 0, total := X, locked := false } := by
  have hfind : get_disputed_transaction
      [⟨TransactionType.Deposit X, c, t⟩, ⟨TransactionType.Dispute, c, t⟩] t =
      some ⟨TransactionType.Deposit X, c, t⟩ := by
    unfold get_disputed_transaction
    simp [List.find?]
  have hXW : X % W = X := Nat.mod_eq_of_lt hX
  unfold closing_balance
  simp only [List.foldl_cons, List.foldl_nil]
  unfold applyTx
  dsimp only
  rw [hfind]
  dsimp only
  have h1 : wadd 0 X = X := by simp [wadd, hXW]
  have h2 : wsub (wadd 0 X) X = 0 := by
    rw [h1]
    simp only [wsub, W] at *
    omega
  rw [h2, h1]
  have h3 : wadd 0 X = X := h1
  simp [wadd, hXW]

/-- C7 witness: the concrete instance from the repository's unit test,
deposit 10.5 (stored as 105000) then dispute it. -/
theorem C7_deposit_dispute_witness :
    closing_balance
        [⟨TransactionType.Deposit 105000, 1, 1⟩, ⟨TransactionType.Dispute, 1, 1⟩] =
      { held := 105000, available := 0, total := 105000, locked := false } :=
  C7_deposit_dispute 105000 1 1 (by decide)

/-- Feeding a stream through `Accounts::add_transaction` stores, for each
client, exactly the subsequence of the stream with that client id, in
arrival order. -/
theorem buildAccounts_foldl_eq_filter (txs : List Transaction)
    (acc : Nat → List Transaction) (c : Nat) :
    (txs.foldl add_transaction acc) c =
      acc c ++ txs.filter (fun tx => tx.client_id == c) := by
  induction txs generalizing acc with
  | nil => simp
  | cons tx rest ih =>
      rw [List.foldl_cons, ih, List.filter_cons]
      by_cases h : tx.client_id = c
      · subst h
        simp [add_transaction]
      · have hb : (tx.client_id == c) = false := by simp [h]
        rw [hb]
        simp only [Bool.false_eq_true, if_false]
        unfold add_transaction
        rw [if_neg (fun hc => h hc.symm)]

/-- C9: the closing balance a client gets from the interleaved multi-client
stream equals the closing balance obtained by processing that client's
subsequence in isolation — clients never influence each other. -/
theorem C9_client_isolation (txs : List Transaction) (c : Nat) :
    closing_balance (buildAccounts txs c) =
      closing_balance
        (buildAccounts (txs.filter (fun tx => tx.client_id == c)) c) := by
  unfold buildAccounts
  rw [buildAccounts_foldl_eq_filter, buildAccounts_foldl_eq_filter]
  simp [List.filter_filter]

/-- Appending further records to a history does not change a lookup whose
id already occurs in the original part: `find?` takes the first match. -/
theorem get_disputed_append (l1 l2 : List Transaction) (i : Nat)
    (h : ∃ tx ∈ l1, tx.transaction_id = i) :
    get_disputed_transaction (l1 ++ l2) i = get_disputed_transaction l1 i := by
  unfold get_disputed_transaction
  rw [List.find?_append]
  have hsome : (l1.find? (fun tx => tx.transaction_id == i)).isSome = true := by
    rw [List.find?_isSome]
    rcases h with ⟨tx, htx, hid⟩
    exact ⟨tx, htx, by simp [hid]⟩
  cases hfind : l1.find? (fun tx => tx.transaction_id == i) with
  | none => rw [hfind] at hsome; simp at hsome
  | some r => rfl

/-- A replay step for a record that is itself part of `l1` behaves the same
whether the enclosing history is `l1` or `l1 ++ l2`: the only history access
is the dispute-chain lookup, and the record's own id is present in `l1`
(a Dispute/Resolve record carries the id it references). -/
theorem applyTx_append (l1 l2 : List Transaction) (tx : Transaction)
    (htx : tx ∈ l1) (s : ReplayState) :
    applyTx (l1 ++ l2) s tx = applyTx l1 s tx := by
  have hlook := get_disputed_append l1 l2 tx.transaction_id ⟨tx, htx, rfl⟩
  unfold applyTx
  rw [hlook]

/-- Replaying the records of `l1` is insensitive to records appended after
them (the lookups they trigger resolve within `l1`). -/
theorem foldl_applyTx_append (l1 l2 : List Transaction) (s : ReplayState) :
    l1.foldl (applyTx (l1 ++ l2)) s = l1.foldl (applyTx l1) s :=
  List.foldl_ext _ _ s (fun s' tx htx => applyTx_append l1 l2 tx htx s')

/-- C8: appending `[Dispute t, Resolve t]` to a history containing a deposit
with id `t` leaves the closing balance unchanged: the Resolve step exactly
undoes the Dispute step (whatever record the shared lookup resolves to),
and the appended records do not perturb the replay of the original part. -/
theorem C8_dispute_resolve_cancel (H : List Transaction) (c t : Nat)
    (hdep : ∃ tx ∈ H, tx.transaction_id = t ∧
      ∃ X, tx.tx_type = TransactionType.Deposit X) :
    closing_balance
        (H ++ [⟨TransactionType.Dispute, c, t⟩, ⟨TransactionType.Resolve, c, t⟩]) =
      closing_balance H := by
  have hex : ∃ tx ∈ H, tx.transaction_id = t := by
    rcases hdep with ⟨tx, htx, hid, _⟩
    exact ⟨tx, htx, hid⟩
  have hlook : get_disputed_transaction
      (H ++ [⟨TransactionType.Dispute, c, t⟩, ⟨TransactionType.Resolve, c, t⟩]) t =
      get_disputed_transaction H t :=
    get_disputed_append H _ t hex
  have hpre : H.foldl
      (applyTx (H ++ [⟨TransactionType.Dispute, c, t⟩, ⟨TransactionType.Resolve, c, t⟩]))
      ⟨0, 0, false⟩ = H.foldl (applyTx H) ⟨0, 0, false⟩ :=
    foldl_applyTx_append H _ ⟨0, 0, false⟩
  have hlt := foldl_applyTx_lt H H ⟨0, 0, false⟩ (by decide) (by decide)
  have htail : ∀ s : ReplayState, s.held < W → s.available < W →
      applyTx (H ++ [⟨TransactionType.Dispute, c, t⟩, ⟨TransactionType.Resolve, c, t⟩])
        (applyTx
          (H ++ [⟨TransactionType.Dispute, c, t⟩, ⟨TransactionType.Resolve, c, t⟩]) s
          ⟨TransactionType.Dispute, c, t⟩)
        ⟨TransactionType.Resolve, c, t⟩ = s := by
    intro s hh ha
    unfold applyTx
    dsimp only
    rw [hlook]
    cases hg : get_disputed_transaction H t with
    | none => rfl
    | some rr =>
        rcases rr with ⟨rk, rc, ri⟩
        cases rk with
        | Deposit X =>
            dsimp only
            rw [wsub_wadd_cancel s.held X hh, wadd_wsub_cancel s.available X ha]
        | Withdrawal X =>
            dsimp only
            rw [wadd_wsub_cancel s.held X hh, wsub_wadd_cancel s.available X ha]
        | Dispute => rfl
        | Resolve => rfl
        | Chargeback => rfl
  have hstate :
      List.foldl
        (applyTx (H ++ [(⟨TransactionType.Dispute, c, t⟩ : Transaction),
          ⟨TransactionType.Resolve, c, t⟩]))
        (⟨0, 0, false⟩ : ReplayState)
        (H ++ [(⟨TransactionType.Dispute, c, t⟩ : Transaction),
          ⟨TransactionType.Resolve, c, t⟩]) =
        H.foldl (applyTx H) ⟨0, 0, false⟩ := by
    rw [List.foldl_append, hpre]
    simp only [List.foldl_cons, List.foldl_nil]
    exact htail _ hlt.1 hlt.2
  simp only [closing_balance]
  rw [hstate]

/-- C8 witness: a single deposit of 10 with id 1, followed by the appended
dispute/resolve pair on id 1, closes exactly like the deposit alone. -/
theorem C8_dispute_resolve_cancel_witness :
    closing_balance
        ([⟨TransactionType.Deposit 10, 1, 1⟩] ++
          [⟨TransactionType.Dispute, 1, 1⟩, ⟨TransactionType.Resolve, 1, 1⟩]) =
      closing_balance [⟨TransactionType.Deposit 10, 1, 1⟩] :=
  C8_dispute_resolve_cancel [⟨TransactionType.Deposit 10, 1, 1⟩] 1 1
    ⟨⟨TransactionType.Deposit 10, 1, 1⟩, by simp, rfl, 10, rfl⟩

end Accounts
